import Mathlib

/-!
Verification of the xv6 kernel logging subsystem (`klogdev.c`, `klog.h`,
`sysproc.c:sys_getklog`): a shallow embedding of the per-CPU ring buffers,
the sequence allocator, the message formatter, the snapshot collector and
the two serialization boundaries, together with theorems settling the
frozen claims about the natural-language specification.

Machine integers (`uint`, `int`) are modelled as `Nat`/`Int` with explicit
`% 2^32` where the source can wrap.  Hardware inputs (TSC timestamps, the
calling CPU id, the current pid) are parameters of the operations, exactly
the values the corresponding kernel primitives would return.
-/

set_option maxRecDepth 4000

namespace Klog

/-- `#define KLOG_BUF_SIZE 256` (klog.h). -/
def KLOG_BUF_SIZE : Nat := 256

/-- `#define NCPU 8` (param.h, xv6-public). -/
def NCPU : Nat := 8

/-- `PGSIZE` = 4096 (mmu.h). -/
def PGSIZE : Nat := 4096

/-- 2^32, the wraparound modulus of C `uint` arithmetic on xv6 (32-bit x86). -/
def U32 : Nat := 4294967296

/-- `struct klog_entry` (klog.h): six `uint` fields followed by `char msg[64]`.
`msg` is modelled as the list of characters written before the terminating
NUL (the C array keeps whatever bytes follow the NUL; those are never read
back by the subsystem and are abstracted away). -/
structure KlogEntry where
  seq : Nat
  timestamp_hi : Nat
  timestamp_lo : Nat
  cpu : Nat
  pid : Nat
  level : Nat
  msg : List Char
deriving DecidableEq

/-- The all-zero entry: static C arrays are zero-initialized, so every ring
slot starts as this record (empty message = NUL at index 0). -/
def zeroEntry : KlogEntry :=
  { seq := 0, timestamp_hi := 0, timestamp_lo := 0, cpu := 0, pid := 0, level := 0, msg := [] }

/-- `struct klog_cpu_buf` (klog.h), minus the spinlock (pure modelling of the
data protected by it): `entries[KLOG_BUF_SIZE]`, the `head` cursor and the
`dropped` counter. -/
structure KlogCpuBuf where
  entries : Fin KLOG_BUF_SIZE → KlogEntry
  head : Nat
  dropped : Nat

/-- The whole subsystem state: `cpu_logs[NCPU]` and the global sequence
counter `global_seq` guarded by `seq_lock`. -/
structure KlogState where
  cpu_logs : Fin NCPU → KlogCpuBuf
  global_seq : Nat

/-- State right after `klog_init` zeroes heads and drop counters (and before
its own `klog_printf` call): static storage is all zero. -/
def zeroState : KlogState :=
  { cpu_logs := fun _ => { entries := fun _ => zeroEntry, head := 0, dropped := 0 },
    global_seq := 0 }

/-! ## Message formatting (`snprintf_int`, `snprintf_hex`, the loop in
`klog_printf_internal`) -/

/-- A vararg word on the xv6 stack: either a plain 32-bit word (read by `%d`
as a signed int and by `%x` as a `uint`) or a string pointer (read by `%s`;
`none` models a NULL pointer). -/
inductive FmtArg where
  | word (w : Nat)
  | str (s : Option (List Char))
deriving DecidableEq

/-- `'0' + d` as in `snprintf_int`. -/
def digitChar (d : Nat) : Char := Char.ofNat (48 + d)

/-- `digits[d]` with `digits = "0123456789abcdef"` as in `snprintf_hex`. -/
def hexDigitChar (d : Nat) : Char := Char.ofNat (if d < 10 then 48 + d else 87 + d)

/-- The digit loop of `snprintf_int`: `while(val > 0 && i < sizeof(tmp))`
with `char tmp[16]`, collecting decimal digits least significant first.
The first argument is the remaining capacity of `tmp`. -/
def natDigitsRevAux : Nat → Nat → List Char
  | 0, _ => []
  | _ + 1, 0 => []
  | f + 1, v + 1 => digitChar ((v + 1) % 10) :: natDigitsRevAux f ((v + 1) / 10)

/-- Decimal digits of `v`, least significant first, at most 16 of them
(`tmp[16]`; a 32-bit value has at most 10). -/
def natDigitsRev (v : Nat) : List Char := natDigitsRevAux 16 v

/-- The digit loop of `snprintf_hex` (`val & 0xf`, `val >>= 4`), collecting
hex digits least significant first into `char tmp[16]`. -/
def natHexRevAux : Nat → Nat → List Char
  | 0, _ => []
  | _ + 1, 0 => []
  | f + 1, v + 1 => hexDigitChar ((v + 1) % 16) :: natHexRevAux f ((v + 1) / 16)

/-- Hex digits of `v`, least significant first, at most 16 of them
(a 32-bit value has at most 8). -/
def natHexRev (v : Nat) : List Char := natHexRevAux 16 v

/-- `snprintf_int(buf, size, val)` (klogdev.c): the characters it writes
(its return value is their number).  A minus sign, then the digits most
significant first, truncated to `size - 1` characters. -/
def snprintf_int_chars (size : Nat) (val : Int) : List Char :=
  if size = 0 then []
  else
    let tmp : List Char := if val.natAbs = 0 then [digitChar 0] else natDigitsRev val.natAbs
    List.take (size - 1) ((if val < 0 then ['-'] else []) ++ tmp.reverse)

/-- `snprintf_hex(buf, size, val)` (klogdev.c): returns nothing when
`size <= 2`, otherwise `0x` followed by the hex digits most significant
first, the digits truncated to `size - 3` characters. -/
def snprintf_hex_chars (size : Nat) (w : Nat) : List Char :=
  if size ≤ 2 then []
  else
    let tmp : List Char := if w = 0 then [digitChar 0] else natHexRev w
    ['0', 'x'] ++ List.take (size - 3) tmp.reverse

/-- Reinterpret a 32-bit vararg word as the C `int` that `%d` reads
(two's complement). -/
def wordToInt (w : Nat) : Int :=
  if w < 2147483648 then (w : Int) else (w : Int) - (U32 : Int)

/-- `*ap++` for `%d` / `%x`: pop one word.  A missing or mistyped argument
reads unspecified memory in C; the model returns 0 (never exercised). -/
def popWord : List FmtArg → Nat × List FmtArg
  | FmtArg.word w :: r => (w, r)
  | FmtArg.str _ :: r => (0, r)
  | [] => (0, [])

/-- `*ap++` for `%s`: pop one string pointer, substituting `"(null)"` for a
NULL pointer as the code does. -/
def popStr : List FmtArg → List Char × List FmtArg
  | FmtArg.str (some cs) :: r => (cs, r)
  | FmtArg.str none :: r => ("(null)".toList, r)
  | FmtArg.word _ :: r => ([], r)
  | [] => ([], [])

/-- The formatting loop of `klog_printf_internal` over `char buf[64]`.
`acc` is the prefix written so far; because every store `buf[i++] = c`
happens at `i = ` number of characters already written, the buffer content
is exactly `acc` and the terminating `buf[i] = 0` after the loop lands at
index `acc.length` (which claim C10 is about).  Guards compare against
`sizeof(buf)-1 = 63`; the sub-formatters receive `sizeof(buf) - i`. -/
def formatLoop : List Char → List FmtArg → List Char → List Char
  | [], _, acc => acc
  | c :: fmtr, args, acc =>
    if 63 ≤ acc.length then acc
    else if c ≠ '%' then formatLoop fmtr args (acc ++ [c])
    else match fmtr with
      | [] => acc
      | d :: fmt2 =>
        if d = 'd' then
          formatLoop fmt2 (popWord args).2
            (acc ++ snprintf_int_chars (64 - acc.length) (wordToInt (popWord args).1))
        else if d = 'x' then
          formatLoop fmt2 (popWord args).2
            (acc ++ snprintf_hex_chars (64 - acc.length) (popWord args).1)
        else if d = 's' then
          formatLoop fmt2 (popStr args).2 (acc ++ List.take (63 - acc.length) (popStr args).1)
        else if d = '%' then formatLoop fmt2 args (acc ++ ['%'])
        else formatLoop fmt2 args (acc ++ ['%', d])

/-! ## Recording (`next_seq` + the append section of `klog_printf_internal`) -/

/-- `klog_printf_level(level, fmt, ...)` on a given CPU (klogdev.c).
`cpu` is the `cpuid()` result (pinned by `pushcli`/`popcli`), `pid` the
`myproc()->pid` (0 when none), `ts_hi`/`ts_lo` the `rdtsc` halves.  Under
the buffer lock: `idx = head % KLOG_BUF_SIZE`, the entry is stamped with
`next_seq()` (which returns `global_seq` and then increments it, `uint`
arithmetic), the message is copied up to 63 characters, `head++`.
Returns the new state and the entry written. -/
def klog_printf_level_step (s : KlogState) (cpu : Fin NCPU) (pid level ts_hi ts_lo : Nat)
    (fmt : List Char) (args : List FmtArg) : KlogState × KlogEntry :=
  let buf := formatLoop fmt args []
  let log := s.cpu_logs cpu
  let entry : KlogEntry :=
    { seq := s.global_seq % U32, timestamp_hi := ts_hi, timestamp_lo := ts_lo,
      cpu := cpu.val, pid := pid, level := level, msg := buf.take 63 }
  let idx : Fin KLOG_BUF_SIZE := ⟨log.head % KLOG_BUF_SIZE, Nat.mod_lt log.head (by decide)⟩
  let log2 : KlogCpuBuf :=
    { entries := fun q => if q = idx then entry else log.entries q,
      head := (log.head + 1) % U32, dropped := log.dropped }
  ({ cpu_logs := fun c => if c = cpu then log2 else s.cpu_logs c,
     global_seq := (s.global_seq + 1) % U32 }, entry)

/-- `klog_clear` (klogdev.c): reset every core's `head` and `dropped` under
its lock; entries and the global sequence counter are untouched. -/
def klog_clear_fn (s : KlogState) : KlogState :=
  { cpu_logs := fun c => { entries := (s.cpu_logs c).entries, head := 0, dropped := 0 },
    global_seq := s.global_seq }

/-- `klog_get_dropped` (klogdev.c): `uint total` summed over all cores. -/
def klog_get_dropped_fn (s : KlogState) : Nat :=
  (List.finRange NCPU).foldl (fun total c => (total + (s.cpu_logs c).dropped) % U32) 0

/-! ## Snapshot collection (`klog_snapshot`) -/

/-- The range computation at the top of the per-core loop of
`klog_snapshot`: `start = head - KLOG_BUF_SIZE` when `head > KLOG_BUF_SIZE`,
else `start = 0`; `end = head`. -/
def snapshotRange (log : KlogCpuBuf) : Nat × Nat :=
  if log.head > KLOG_BUF_SIZE then (log.head - KLOG_BUF_SIZE, log.head) else (0, log.head)

/-- The body of the inner copy loop of `klog_snapshot`, recursing on the
number `e - i` of remaining loop iterations (so `fuel = 0` is exactly the
exit condition `¬(i < e)` of the source loop). -/
def copyRangeFuel (log : KlogCpuBuf) (m : Nat) : Nat → Nat → List KlogEntry → List KlogEntry
  | 0, _, acc => acc
  | f + 1, i, acc =>
    if acc.length < m then
      copyRangeFuel log m f (i + 1)
        (acc ++ [log.entries ⟨i % KLOG_BUF_SIZE, Nat.mod_lt i (by decide)⟩])
    else acc

/-- The inner copy loop of `klog_snapshot`:
`for(i = start; i < end && count < max_entries; i++) buf[count++] = entries[i % KLOG_BUF_SIZE];`
with `acc` the output buffer prefix written so far (`count = acc.length`). -/
def copyRange (log : KlogCpuBuf) (e m : Nat) (i : Nat) (acc : List KlogEntry) : List KlogEntry :=
  copyRangeFuel log m (e - i) i acc

/-- The outer per-core loop of `klog_snapshot`, visiting cores in ascending
id order; each visit copies that core's valid range under its lock. -/
def collectCpus (s : KlogState) : List (Fin NCPU) → Nat → List KlogEntry → List KlogEntry
  | [], _, acc => acc
  | c :: cs, m, acc =>
    collectCpus s cs m
      (copyRange (s.cpu_logs c) (snapshotRange (s.cpu_logs c)).2 m
        (snapshotRange (s.cpu_logs c)).1 acc)

/-- All entries `klog_snapshot` collects before sorting. -/
def klog_snapshot_collect (s : KlogState) (m : Nat) : List KlogEntry :=
  collectCpus s (List.finRange NCPU) m []

/-- One inner pass of the bubble sort in `klog_snapshot`: `n` adjacent
comparisons `buf[j].seq > buf[j+1].seq`, swapping out-of-order pairs,
left to right. -/
def bubblePass : Nat → List KlogEntry → List KlogEntry
  | 0, l => l
  | n + 1, a :: b :: t =>
    if b.seq < a.seq then b :: bubblePass n (a :: t) else a :: bubblePass n (b :: t)
  | _ + 1, l => l

/-- The outer bubble-sort loop: passes of `count-1, count-2, ..., 1`
comparisons.  This models the executions where `count ≥ 1`; for `count = 0`
the C loop guards underflow in unsigned arithmetic and run out of bounds,
which claim C9 captures separately via `u32sub` below. -/
def bubbleIter : Nat → List KlogEntry → List KlogEntry
  | 0, l => l
  | n + 1, l => bubbleIter n (bubblePass (n + 1) l)

/-- `klog_snapshot(buf, max_entries)` (klogdev.c): returns the count and the
contents of the output buffer (collected entries, bubble-sorted by `seq`). -/
def klog_snapshot_fn (s : KlogState) (m : Nat) : Nat × List KlogEntry :=
  let collected := klog_snapshot_collect s m
  (collected.length, bubbleIter (collected.length - 1) collected)

/-- `klog_snapshot` as a state transformer.  The source only ever reads the
per-core buffers (acquire, compute range, copy out, release) and assigns to
no field of `cpu_logs` nor to `global_seq`, so the state it hands back is
the state it was given. -/
def klog_snapshot_st (s : KlogState) (m : Nat) : (Nat × List KlogEntry) × KlogState :=
  (klog_snapshot_fn s m, s)

/-! ## Operation traces -/

/-- One subsystem operation, with the ambient inputs (cpu, pid, timestamp,
format arguments) a call would observe. -/
inductive KlogOp where
  | record (cpu : Fin NCPU) (pid level ts_hi ts_lo : Nat) (fmt : List Char) (args : List FmtArg)
  | snapshot (m : Nat)
  | clear

/-- Run a list of operations; also returns the records produced by the
`record` operations, in call order, tagged with their originating core. -/
def runOps : List KlogOp → KlogState → KlogState × List (Fin NCPU × KlogEntry)
  | [], s => (s, [])
  | KlogOp.record c pid level hi lo fmt args :: rest, s =>
    let r := klog_printf_level_step s c pid level hi lo fmt args
    let t := runOps rest r.1
    (t.1, (c, r.2) :: t.2)
  | KlogOp.snapshot m :: rest, s => runOps rest (klog_snapshot_st s m).2
  | KlogOp.clear :: rest, s => runOps rest (klog_clear_fn s)

/-- Number of `record` operations in a trace. -/
def recordCount : List KlogOp → Nat
  | [] => 0
  | KlogOp.record _ _ _ _ _ _ _ :: rest => recordCount rest + 1
  | _ :: rest => recordCount rest

/-- Core id 0. -/
def cpu0 : Fin NCPU := ⟨0, by decide⟩

/-- Core id 1. -/
def cpu1 : Fin NCPU := ⟨1, by decide⟩

/-- State after `klog_init`: locks initialized, heads and drop counters
zeroed, then `klog_printf("klog: logging subsystem initialized")` appends
one INFO record on the booting CPU (cpu 0, pid 0). -/
def klog_init_state : KlogState :=
  (klog_printf_level_step zeroState cpu0 0 1 0 0
    "klog: logging subsystem initialized".toList []).1

/-! ## Serialization boundaries -/

/-- `sizeof(struct klog_entry)`: six 4-byte `uint` fields plus `char msg[64]`
with no padding (4-byte alignment, 32-bit x86). -/
def klog_entry_sizeof : Nat := 4 * 6 + 64

/-- Little-endian bytes of a 32-bit field as laid out in memory on x86. -/
def le32 (w : Nat) : List Nat :=
  [w % 256, w / 256 % 256, w / 65536 % 256, w / 16777216 % 256]

/-- The 64 bytes of the `msg` field: the stored characters, the terminating
NUL, and zero padding (slots begin zeroed; for an overwritten slot the bytes
after the NUL are stale ones from the previous occupant, which no consumer
reads — the model pads with zeros). -/
def msgBytes (m : List Char) : List Nat :=
  (m.take 63).map Char.toNat ++ List.replicate (64 - (m.take 63).length) 0

/-- The memory image of a `struct klog_entry`, field by field in declaration
order: seq, timestamp_hi, timestamp_lo, cpu, pid, level, msg[64]. -/
def serializeEntry (e : KlogEntry) : List Nat :=
  le32 e.seq ++ le32 e.timestamp_hi ++ le32 e.timestamp_lo ++
    le32 e.cpu ++ le32 e.pid ++ le32 e.level ++ msgBytes e.msg

/-- The copy loop of `klogdev_read` (klogdev.c): emit whole entries while
`copied + sizeof(struct klog_entry) <= n`; returns the final `copied` and
the bytes written to the destination. -/
def devLoop : List KlogEntry → Nat → Nat → Nat × List Nat
  | [], _, copied => (copied, [])
  | e :: es, n, copied =>
    if copied + klog_entry_sizeof ≤ n then
      ((devLoop es n (copied + klog_entry_sizeof)).1,
        serializeEntry e ++ (devLoop es n (copied + klog_entry_sizeof)).2)
    else (copied, [])

/-- `klogdev_read(ip, dst, n)`: snapshot up to 64 entries into the staging
array, then copy whole entries out while they fit in `n` bytes (`copyout`
failures, which yield -1, are not modelled; claim C3 is about the layout). -/
def klogdev_read_fn (s : KlogState) (n : Nat) : Nat × List Nat :=
  devLoop (klog_snapshot_fn s 64).2 n 0

/-- `max_entries` after the silent cap to `max_fit = PGSIZE / sizeof(struct
klog_entry)` in `sys_getklog`. -/
def getklog_effective (max_entries : Int) : Int :=
  if ((PGSIZE / klog_entry_sizeof : Nat) : Int) < max_entries
  then ((PGSIZE / klog_entry_sizeof : Nat) : Int) else max_entries

/-- The `count` that `sys_getklog` obtains from `klog_snapshot` on its
staging page. -/
def getklog_count (s : KlogState) (max_entries : Int) : Nat :=
  (klog_snapshot_fn s (getklog_effective max_entries).toNat).1

/-- `sys_getklog` (sysproc.c).  `ba`/`me` are the two `int` arguments as
fetched by `argint`, `sz` is `myproc()->sz`, `kallocOk` tells whether
`kalloc` succeeds, `copyOk i` whether the `copyout` of record `i` succeeds.
The `uint` conversions in the source's comparisons are value-preserving
here because `0 ≤ ba < 2^31` and `me * sizeof ≤ 1024 * 88` whenever they
are reached, so plain integer arithmetic is faithful. -/
def sys_getklog_fn (s : KlogState) (ba me : Int) (sz : Nat) (kallocOk : Bool)
    (copyOk : Nat → Bool) : Int :=
  if me ≤ 0 ∨ 1024 < me then -1
  else if ba < 0 ∨ (sz : Int) ≤ ba then -1
  else if (sz : Int) < ba + me * (klog_entry_sizeof : Int) then -1
  else if kallocOk = false then -1
  else if (List.range (getklog_count s me)).all copyOk then (getklog_count s me : Int)
  else -1

/-! ## Unsigned loop guards of the sort in `klog_snapshot` (claim C9) -/

/-- A C `uint` value. -/
def u32 (n : Nat) : Nat := n % U32

/-- Unsigned 32-bit subtraction, the arithmetic in which the sort's loop
bounds `count - 1` and `count - i - 1` are evaluated (`i`, `j` are `uint`,
so the signed `count` is converted to `uint`). -/
def u32sub (a b : Nat) : Nat := (a + U32 - b % U32) % U32

/-! ## The spec's "rendered text" (claim C7) -/

/-- Unbounded decimal rendering of an int: what `%d` stands for. -/
def intCharsFull (val : Int) : List Char :=
  (if val < 0 then ['-'] else []) ++
    (if val.natAbs = 0 then [digitChar 0] else (natDigitsRev val.natAbs).reverse)

/-- Unbounded hexadecimal rendering: what `%x` stands for. -/
def hexCharsFull (w : Nat) : List Char :=
  ['0', 'x'] ++ (if w = 0 then [digitChar 0] else (natHexRev w).reverse)

/-- The text a format string renders to with an unlimited buffer — the
"rendered text" / "intended text" of the specification's truncation
property, using the same four substitution kinds (decimal, 0x-hex, string
with "(null)", literal percent; unrecognized directives copied verbatim). -/
def renderedText : List Char → List FmtArg → List Char
  | [], _ => []
  | c :: fmtr, args =>
    if c ≠ '%' then c :: renderedText fmtr args
    else match fmtr with
      | [] => []
      | d :: fmt2 =>
        if d = 'd' then intCharsFull (wordToInt (popWord args).1) ++ renderedText fmt2 (popWord args).2
        else if d = 'x' then hexCharsFull (popWord args).1 ++ renderedText fmt2 (popWord args).2
        else if d = 's' then (popStr args).1 ++ renderedText fmt2 (popStr args).2
        else if d = '%' then '%' :: renderedText fmt2 args
        else '%' :: d :: renderedText fmt2 args

/-! ## Concrete scenario states -/

/-- A record operation with an empty message and zero ambient inputs, INFO
level, on the given core. -/
def recOp (c : Fin NCPU) : KlogOp := KlogOp.record c 0 1 0 0 [] []

/-- 300 records appended to core 0 (sequences 0..299): the wraparound
scenario of claim C1. -/
def c1state : KlogState := (runOps (List.replicate 300 (recOp cpu0)) zeroState).1

/-- 10 records on core 0 (sequences 0..9), then 10 on core 1 (sequences
10..19, the more recent ones): the budget scenario of claim C2. -/
def c2state : KlogState :=
  (runOps (List.replicate 10 (recOp cpu0) ++ List.replicate 10 (recOp cpu1)) zeroState).1

/-- The format string of the C7 counterexample: 62 literal characters, then
a `%x` directive whose output would start at buffer position 62, then one
more literal character. -/
def c7fmt : List Char := List.replicate 62 'a' ++ ['%', 'x', 'Z']

/-- The argument of the `%x` directive in `c7fmt`. -/
def c7args : List FmtArg := [FmtArg.word 5]

/-- The format string of the C10 failing input: 62 literal characters, then
an unrecognized directive `%q` starting at buffer position 62. -/
def c10fmt : List Char := List.replicate 62 'a' ++ ['%', 'q']

/-- The sum over a core list of the sizes of the ranges `klog_snapshot`
would copy (`end - start` per core): the total number of valid entries. -/
def rangeSum (s : KlogState) (cs : List (Fin NCPU)) : Nat :=
  (cs.map (fun c => (snapshotRange (s.cpu_logs c)).2 - (snapshotRange (s.cpu_logs c)).1)).sum

/-! ## Helper lemmas -/

/-- A literal-only format string is copied up to the 63-character bound. -/
lemma formatLoop_literal :
    ∀ (fmt : List Char) (args : List FmtArg) (acc : List Char), '%' ∉ fmt →
      formatLoop fmt args acc = acc ++ fmt.take (63 - acc.length) := by
  intro fmt
  induction fmt with
  | nil => intro args acc _; simp [formatLoop]
  | cons c fmtr ih =>
    intro args acc h
    have hc : c ≠ '%' := fun he => h (he ▸ List.mem_cons_self c fmtr)
    by_cases hl : 63 ≤ acc.length
    · have h0 : 63 - acc.length = 0 := by omega
      rw [formatLoop.eq_def]
      simp [hl, h0]
    · have hs : 63 - acc.length = (63 - (acc.length + 1)) + 1 := by omega
      rw [formatLoop.eq_def]
      simp only [if_neg hl, if_pos hc]
      rw [ih args (acc ++ [c]) (fun hm => h (List.mem_cons_of_mem c hm))]
      simp [hs, List.take_succ_cons]

/-- A literal-only format string renders to itself. -/
lemma renderedText_literal :
    ∀ (fmt : List Char) (args : List FmtArg), '%' ∉ fmt → renderedText fmt args = fmt := by
  intro fmt
  induction fmt with
  | nil => intro args _; rfl
  | cons c fmtr ih =>
    intro args h
    have hc : c ≠ '%' := fun he => h (he ▸ List.mem_cons_self c fmtr)
    rw [renderedText.eq_def]
    simp only [if_pos hc]
    rw [ih args (fun hm => h (List.mem_cons_of_mem c hm))]

/-- A bubble pass does not change the length of the buffer. -/
lemma bubblePass_length (n : Nat) : ∀ l : List KlogEntry, (bubblePass n l).length = l.length := by
  induction n with
  | zero => intro l; rfl
  | succ n ih =>
    intro l
    match l with
    | [] => rfl
    | [a] => rfl
    | a :: b :: t =>
      by_cases h : b.seq < a.seq
      · simp [bubblePass, h, ih]
      · simp [bubblePass, h, ih]

/-- The bubble sort does not change the length of the buffer. -/
lemma bubbleIter_length (n : Nat) : ∀ l : List KlogEntry, (bubbleIter n l).length = l.length := by
  induction n with
  | zero => intro l; rfl
  | succ n ih => intro l; rw [bubbleIter, ih, bubblePass_length]

/-- The sorted output of `klog_snapshot` has exactly `count` entries. -/
lemma klog_snapshot_fn_length (s : KlogState) (m : Nat) :
    (klog_snapshot_fn s m).2.length = (klog_snapshot_fn s m).1 := by
  unfold klog_snapshot_fn
  exact bubbleIter_length _ _

/-- The copy loop never fills the output buffer beyond `max_entries`. -/
lemma copyRangeFuel_le (log : KlogCpuBuf) (m : Nat) :
    ∀ (f i : Nat) (acc : List KlogEntry), acc.length ≤ m →
      (copyRangeFuel log m f i acc).length ≤ m := by
  intro f
  induction f with
  | zero => intro i acc h; exact h
  | succ f ih =>
    intro i acc h
    rw [copyRangeFuel]
    by_cases hl : acc.length < m
    · rw [if_pos hl]
      exact ih (i + 1) _ (by simp; omega)
    · rw [if_neg hl]
      exact h

/-- The per-core collection loop never exceeds `max_entries` entries. -/
lemma collectCpus_le (s : KlogState) :
    ∀ (cs : List (Fin NCPU)) (m : Nat) (acc : List KlogEntry), acc.length ≤ m →
      (collectCpus s cs m acc).length ≤ m := by
  intro cs
  induction cs with
  | nil => intro m acc h; exact h
  | cons c cs ih =>
    intro m acc h
    rw [collectCpus]
    exact ih m _ (copyRangeFuel_le _ m _ _ acc h)

/-- `klog_snapshot` returns a count at most `max_entries`. -/
lemma klog_snapshot_count_le (s : KlogState) (m : Nat) : (klog_snapshot_fn s m).1 ≤ m :=
  collectCpus_le s (List.finRange NCPU) m [] (by simp)

/-- Every serialized record occupies exactly `sizeof(struct klog_entry)`
bytes. -/
lemma serializeEntry_length (e : KlogEntry) : (serializeEntry e).length = klog_entry_sizeof := by
  simp [serializeEntry, le32, msgBytes, klog_entry_sizeof]

/-- Shape of the `klogdev_read` copy loop: it emits some number `k` of
whole records, returns `copied + sizeof * k`, and the bytes written are the
serializations of the first `k` staged entries, in order. -/
lemma devLoop_shape :
    ∀ (es : List KlogEntry) (n copied : Nat),
      ∃ k, k ≤ es.length ∧ (devLoop es n copied).1 = copied + klog_entry_sizeof * k ∧
        (devLoop es n copied).2 = ((es.take k).map serializeEntry).flatten := by
  intro es
  induction es with
  | nil => intro n copied; exact ⟨0, by simp [devLoop]⟩
  | cons e es ih =>
    intro n copied
    by_cases h : copied + klog_entry_sizeof ≤ n
    · obtain ⟨k, hk1, hk2, hk3⟩ := ih n (copied + klog_entry_sizeof)
      refine ⟨k + 1, by simpa using hk1, ?_, ?_⟩
      · rw [devLoop, if_pos h, hk2]; ring
      · rw [devLoop, if_pos h, hk3]
        simp [List.take_succ_cons]
    · exact ⟨0, by simp [devLoop, h]⟩

/-- Sequence trace of a run: as long as the counter does not wrap, the
records produced by a trace starting at `global_seq = g` carry the
sequences `g, g+1, ...` in call order. -/
lemma runOps_seq_map :
    ∀ (ops : List KlogOp) (s : KlogState), s.global_seq < U32 →
      s.global_seq + recordCount ops ≤ U32 →
      ((runOps ops s).2).map (fun p => p.2.seq) =
        List.range' s.global_seq (recordCount ops) := by
  intro ops
  induction ops with
  | nil => intro s h1 h2; simp [runOps, recordCount]
  | cons op rest ih =>
    intro s h1 h2
    cases op with
    | record c pid level hi lo fmt args =>
      have hrc : recordCount (KlogOp.record c pid level hi lo fmt args :: rest) =
          recordCount rest + 1 := rfl
      rw [hrc] at h2
      have hstep1 : (klog_printf_level_step s c pid level hi lo fmt args).1.global_seq =
          (s.global_seq + 1) % U32 := rfl
      have hstamp : (klog_printf_level_step s c pid level hi lo fmt args).2.seq =
          s.global_seq % U32 := rfl
      have hs : s.global_seq % U32 = s.global_seq := Nat.mod_eq_of_lt h1
      rcases Nat.lt_or_ge (s.global_seq + 1) U32 with hlt | hge
      · have hmod : (s.global_seq + 1) % U32 = s.global_seq + 1 := Nat.mod_eq_of_lt hlt
        have hrest := ih (klog_printf_level_step s c pid level hi lo fmt args).1
          (by rw [hstep1, hmod]; exact hlt) (by rw [hstep1, hmod]; omega)
        rw [hstep1, hmod] at hrest
        simp only [runOps, List.map_cons, hstamp, hs, hrest, hrc, List.range'_succ]
      · have hedge : s.global_seq + 1 = U32 := by omega
        have hn : recordCount rest = 0 := by omega
        have hmod : (s.global_seq + 1) % U32 = 0 := by rw [hedge]; exact Nat.mod_self U32
        have hrest := ih (klog_printf_level_step s c pid level hi lo fmt args).1
          (by rw [hstep1, hmod]; decide) (by rw [hstep1, hmod, hn]; decide)
        rw [hstep1, hmod, hn] at hrest
        simp only [runOps, List.map_cons, hstamp, hs, hrest, hrc, hn, List.range'_succ]
        rfl
    | snapshot m =>
      have : recordCount (KlogOp.snapshot m :: rest) = recordCount rest := rfl
      rw [this] at h2 ⊢
      exact ih s h1 h2
    | clear =>
      have : recordCount (KlogOp.clear :: rest) = recordCount rest := rfl
      rw [this] at h2 ⊢
      exact ih (klog_clear_fn s) h1 h2

/-- The copy loop's result does not depend on the budget as long as the
budget covers all remaining iterations. -/
lemma copyRangeFuel_congr (log : KlogCpuBuf) :
    ∀ (f m₁ m₂ i : Nat) (acc : List KlogEntry),
      acc.length + f ≤ m₁ → acc.length + f ≤ m₂ →
      copyRangeFuel log m₁ f i acc = copyRangeFuel log m₂ f i acc := by
  intro f
  induction f with
  | zero => intro m₁ m₂ i acc h1 h2; rfl
  | succ f ih =>
    intro m₁ m₂ i acc h1 h2
    rw [copyRangeFuel, copyRangeFuel, if_pos (by omega), if_pos (by omega)]
    exact ih m₁ m₂ (i + 1) _ (by simp; omega) (by simp; omega)

/-- When the budget covers all iterations, the copy loop adds exactly one
entry per iteration. -/
lemma copyRangeFuel_length (log : KlogCpuBuf) :
    ∀ (f m i : Nat) (acc : List KlogEntry), acc.length + f ≤ m →
      (copyRangeFuel log m f i acc).length = acc.length + f := by
  intro f
  induction f with
  | zero => intro m i acc h; rfl
  | succ f ih =>
    intro m i acc h
    rw [copyRangeFuel, if_pos (by omega), ih m (i + 1) _ (by simp; omega)]
    simp
    omega

/-- The collection result does not depend on the budget as long as the
budget covers the total number of valid entries. -/
lemma collectCpus_congr (s : KlogState) :
    ∀ (cs : List (Fin NCPU)) (m₁ m₂ : Nat) (acc : List KlogEntry),
      acc.length + rangeSum s cs ≤ m₁ → acc.length + rangeSum s cs ≤ m₂ →
      collectCpus s cs m₁ acc = collectCpus s cs m₂ acc := by
  intro cs
  induction cs with
  | nil => intro m₁ m₂ acc h1 h2; rfl
  | cons c cs ih =>
    intro m₁ m₂ acc h1 h2
    have hr : rangeSum s (c :: cs) =
        ((snapshotRange (s.cpu_logs c)).2 - (snapshotRange (s.cpu_logs c)).1) +
          rangeSum s cs := by
      simp [rangeSum]
    rw [hr] at h1 h2
    rw [collectCpus, collectCpus]
    unfold copyRange
    have hC := copyRangeFuel_congr (s.cpu_logs c)
      ((snapshotRange (s.cpu_logs c)).2 - (snapshotRange (s.cpu_logs c)).1) m₁ m₂
      (snapshotRange (s.cpu_logs c)).1 acc (by omega) (by omega)
    rw [hC]
    have hL := copyRangeFuel_length (s.cpu_logs c)
      ((snapshotRange (s.cpu_logs c)).2 - (snapshotRange (s.cpu_logs c)).1) m₂
      (snapshotRange (s.cpu_logs c)).1 acc (by omega)
    apply ih
    · rw [hL]; omega
    · rw [hL]; omega

/-- `klog_snapshot` produces the same output for any budget at least the
total number of valid entries. -/
lemma klog_snapshot_fn_congr (s : KlogState) (m₁ m₂ : Nat)
    (h1 : rangeSum s (List.finRange NCPU) ≤ m₁)
    (h2 : rangeSum s (List.finRange NCPU) ≤ m₂) :
    klog_snapshot_fn s m₁ = klog_snapshot_fn s m₂ := by
  unfold klog_snapshot_fn klog_snapshot_collect
  rw [collectCpus_congr s (List.finRange NCPU) m₁ m₂ [] (by simpa) (by simpa)]

/-! ## Claim theorems -/

/-- C1: wraparound behavior of one core's buffer of capacity 256.  After 300
records (sequences 0..299) are appended to core 0, a snapshot with any
`max_entries ≥ 256` returns exactly the 256 records at cursor positions
44..299 — sequences 44..299 in ascending order — and none of the 44
overwritten earliest records appears in the result. -/
theorem C1_wraparound_snapshot (m : Nat) (h : 256 ≤ m) :
    (klog_snapshot_fn c1state m).1 = 256 ∧
    (klog_snapshot_fn c1state m).2.map (fun e => e.seq) = List.range' 44 256 ∧
    (∀ q, q < 44 → q ∉ (klog_snapshot_fn c1state m).2.map (fun e => e.seq)) := by
  have hsum : rangeSum c1state (List.finRange NCPU) = 256 := by decide
  have he : klog_snapshot_fn c1state m = klog_snapshot_fn c1state 256 :=
    klog_snapshot_fn_congr c1state m 256 (by omega) (by omega)
  rw [he]
  have hcount : (klog_snapshot_fn c1state 256).1 = 256 := by decide
  have hmap : (klog_snapshot_fn c1state 256).2.map (fun e => e.seq) = List.range' 44 256 := by
    decide
  refine ⟨hcount, hmap, ?_⟩
  intro q hq hmem
  rw [hmap] at hmem
  have := List.mem_range'_1.mp hmem
  omega

/-- C1, witness: the boundary budget `max_entries = 256` itself. -/
theorem C1_wraparound_snapshot_witness :
    (klog_snapshot_fn c1state 256).1 = 256 ∧
    (klog_snapshot_fn c1state 256).2.map (fun e => e.seq) = List.range' 44 256 ∧
    (∀ q, q < 44 → q ∉ (klog_snapshot_fn c1state 256).2.map (fun e => e.seq)) :=
  C1_wraparound_snapshot 256 (by decide)

/-- C5: before the 2^32 counter wraparound (i.e. as long as the number of
record operations keeps the counter within 2^32), the sequence numbers
stamped into the produced records are pairwise distinct, and among records
produced on the same core the one issued later in call order carries the
strictly larger sequence (the proof shows the stamped sequences are in fact
globally strictly increasing in call order). -/
theorem C5_seq_unique_monotone (ops : List KlogOp) (s : KlogState)
    (h1 : s.global_seq < U32) (h2 : s.global_seq + recordCount ops ≤ U32) :
    ((runOps ops s).2.map (fun p => p.2.seq)).Pairwise (· ≠ ·) ∧
    ((runOps ops s).2).Pairwise (fun a b => a.1 = b.1 → a.2.seq < b.2.seq) := by
  have hmap := runOps_seq_map ops s h1 h2
  have hlt : ((runOps ops s).2.map (fun p => p.2.seq)).Pairwise (· < ·) := by
    rw [hmap]
    exact List.pairwise_lt_range' _ _
  constructor
  · exact hlt.imp Nat.ne_of_lt
  · apply List.Pairwise.imp ?_ (List.pairwise_map.mp hlt)
    intro a b h
    exact fun _ => h

/-- C5, witness: two records issued on core 0 from the freshly initialized
counter. -/
theorem C5_seq_unique_monotone_witness :
    ((runOps [recOp cpu0, recOp cpu0] zeroState).2.map (fun p => p.2.seq)).Pairwise (· ≠ ·) ∧
    ((runOps [recOp cpu0, recOp cpu0] zeroState).2).Pairwise
      (fun a b => a.1 = b.1 → a.2.seq < b.2.seq) :=
  C5_seq_unique_monotone [recOp cpu0, recOp cpu0] zeroState (by decide) (by decide)

/-- C2: klog_snapshot consumes its max_entries budget in ascending core-id
order.  With core 0 holding 10 valid records (sequences 0..9) and core 1
holding 10 valid records (the more recent sequences 10..19), a snapshot
with max_entries = 12 returns all 10 records of core 0 plus the 2
oldest-still-valid records of core 1 (sequences 10 and 11), sorted
ascending by sequence — and in particular not the 10 records of core 1
plus 2 of core 0, which a recency-ordered budget would produce. -/
theorem C2_budget_core_order :
    (klog_snapshot_fn c2state 12).1 = 12 ∧
    (klog_snapshot_fn c2state 12).2.map (fun e => (e.cpu, e.seq)) =
      [(0, 0), (0, 1), (0, 2), (0, 3), (0, 4), (0, 5), (0, 6), (0, 7), (0, 8), (0, 9),
       (1, 10), (1, 11)] := by
  decide

/-- C6: klog_snapshot never mutates any per-core ring buffer state — the
source body only reads `head` and `entries` under each core's lock and
assigns to neither, which the embedding records by returning its input
state — and consequently a second snapshot with the same max_entries and
no intervening record operation returns the identical count and records. -/
theorem C6_snapshot_readonly (s : KlogState) (m : Nat) :
    (klog_snapshot_st s m).2 = s ∧
    klog_snapshot_st (klog_snapshot_st s m).2 m = klog_snapshot_st s m :=
  ⟨rfl, rfl⟩

/-- C9: refuted as stated — the claim asserts the sort phase performs no
destination accesses when every core is empty, but with `count = 0` the
guards `i < count - 1` and `j < count - i - 1` are evaluated in unsigned
arithmetic as `0 < 2^32 - 1`, so both loops are entered and the first
comparison accesses `buf[0]` and `buf[1]`, positions outside
`0 .. count-1 = ∅`.  This theorem evaluates the code at the failing input:
after `klog_clear`, the snapshot's count is 0, yet both loop-entry guards
(modelled by `u32sub`, the unsigned subtraction the C comparisons use)
hold. -/
theorem C9_sort_underflow_bug :
    (klog_snapshot_fn (klog_clear_fn klog_init_state) 64).1 = 0 ∧
    0 < u32sub (klog_snapshot_fn (klog_clear_fn klog_init_state) 64).1 1 ∧
    0 < u32sub (u32sub (klog_snapshot_fn (klog_clear_fn klog_init_state) 64).1 0) 1 := by
  decide

/-- C10: refuted as stated — the claim asserts the terminating null byte is
stored at an index at most 63 even when an unrecognized directive begins at
buffer position 62, but on `c10fmt` (62 literals then `%q`) the default
case writes `'%'` at 62 and `'q'` at 63, leaving `i = 64`, so the final
`buf[i] = 0` stores the null at index 64, one past `char buf[64]`.  The
buffer content length (= the null index) evaluates to 64 at this input. -/
theorem C10_format_null_oob_bug : (formatLoop c10fmt [] []).length = 64 := by
  decide

/-- C7 counterexample: a message that renders to 66 characters (62 literals,
`0x5` from `%x`, then `Z`) is not stored as the first 63 characters of the
rendered text: `snprintf_hex` is called with remaining size 2, emits
nothing (dropping `0x5` entirely), and the following literal `Z` is stored
at position 62, where the rendered text has `0`. -/
theorem C7_truncation_counterexample :
    63 < (renderedText c7fmt c7args).length ∧
    ((klog_printf_level_step zeroState cpu0 0 1 0 0 c7fmt c7args).2).msg ≠
      (renderedText c7fmt c7args).take 63 := by
  decide

/-- C7 amended: for every record operation whose format string is literal
text (no `%` directives) rendering to more than 63 characters — e.g. the
specification's 80-character message — the stored message is exactly the
first 63 characters of the rendered text (and the record operation returns
nothing, so the truncation is not reported).  The original claim's
unrestricted form fails when a `%x` directive's output starts at position
62 (see the counterexample). -/
theorem C7_truncation_amended (s : KlogState) (c : Fin NCPU) (pid level hi lo : Nat)
    (fmt : List Char) (args : List FmtArg) (hnp : '%' ∉ fmt) (_hlen : 63 < fmt.length) :
    ((klog_printf_level_step s c pid level hi lo fmt args).2).msg =
      (renderedText fmt args).take 63 ∧
    (renderedText fmt args).take 63 = fmt.take 63 := by
  have h1 : formatLoop fmt args [] = fmt.take 63 := by
    simpa using formatLoop_literal fmt args [] hnp
  have h2 : renderedText fmt args = fmt := renderedText_literal fmt args hnp
  constructor
  · show (formatLoop fmt args []).take 63 = _
    rw [h1, h2, List.take_take]
    simp
  · rw [h2]

/-- C3 counterexample: the record layout does not occupy 84 bytes — the six
unsigned 32-bit fields plus the 64-byte message come to 88 bytes, so the
serialized form of (for instance) the all-zero record has length 88, not
84. -/
theorem C3_layout_size_counterexample : (serializeEntry zeroEntry).length ≠ 84 := by
  decide

/-- C3 amended: a log record has the fixed layout sequence, timestamp-high,
timestamp-low, core-id, subject-id, severity — each an unsigned 32-bit
field — followed by a 64-byte message, occupying exactly 88 bytes (not 84);
and the `/dev/klog` streaming read transfers records in whole 88-byte units
of exactly this serialization: for every state and byte budget it returns
`88 * k` and writes the concatenated 88-byte serializations of the first
`k` snapshot entries (`getklog` likewise copies out records at this same
`sizeof` stride). -/
theorem C3_layout_amended (e : KlogEntry) (s : KlogState) (n : Nat) :
    (serializeEntry e).length = 88 ∧
    ∃ k, k ≤ (klog_snapshot_fn s 64).1 ∧
      (klogdev_read_fn s n).1 = 88 * k ∧
      (klogdev_read_fn s n).2 = (((klog_snapshot_fn s 64).2.take k).map serializeEntry).flatten := by
  constructor
  · rw [serializeEntry_length]; rfl
  · obtain ⟨k, hk1, hk2, hk3⟩ := devLoop_shape (klog_snapshot_fn s 64).2 n 0
    have hlen := klog_snapshot_fn_length s 64
    have h88 : klog_entry_sizeof = 88 := by decide
    rw [h88] at hk2
    refine ⟨k, by omega, ?_, hk3⟩
    rw [klogdev_read_fn, hk2]
    omega

/-- Recording on one core leaves every core's `dropped` counter as it was
(the appended core keeps its old value, the others are untouched). -/
lemma record_dropped (s : KlogState) (c0 : Fin NCPU) (pid level hi lo : Nat)
    (fmt : List Char) (args : List FmtArg) (c : Fin NCPU) :
    (((klog_printf_level_step s c0 pid level hi lo fmt args).1).cpu_logs c).dropped =
      (s.cpu_logs c).dropped := by
  by_cases hc : c = c0
  · subst hc; simp [klog_printf_level_step]
  · simp [klog_printf_level_step, hc]

/-- No operation ever makes a `dropped` counter nonzero. -/
lemma runOps_dropped_inv :
    ∀ (ops : List KlogOp) (s : KlogState), (∀ c, (s.cpu_logs c).dropped = 0) →
      ∀ c, (((runOps ops s).1).cpu_logs c).dropped = 0 := by
  intro ops
  induction ops with
  | nil => intro s h c; exact h c
  | cons op rest ih =>
    intro s h c
    cases op with
    | record c0 pid level hi lo fmt args =>
      exact ih _ (fun c1 => by rw [record_dropped]; exact h c1) c
    | snapshot m => exact ih s h c
    | clear => exact ih _ (fun c1 => rfl) c

/-- Summing all-zero drop counters yields zero. -/
lemma dropped_foldl (s : KlogState) (h : ∀ c, (s.cpu_logs c).dropped = 0) :
    ∀ l : List (Fin NCPU),
      l.foldl (fun total c => (total + (s.cpu_logs c).dropped) % U32) 0 = 0 := by
  intro l
  induction l with
  | nil => rfl
  | cons c cs ih =>
    rw [List.foldl_cons, h c]
    exact ih

/-- C8: no operation of the subsystem ever increments any core's dropped
counter — in every state reachable from the post-`klog_init` state by any
sequence of record, snapshot and clear operations (including ones that wrap
the ring and overwrite entries), every core's `dropped` field is 0 and
`klog_get_dropped` returns 0. -/
theorem C8_dropped_always_zero (ops : List KlogOp) (c : Fin NCPU) :
    (((runOps ops klog_init_state).1).cpu_logs c).dropped = 0 ∧
    klog_get_dropped_fn ((runOps ops klog_init_state).1) = 0 := by
  have hinit : ∀ c0, ((klog_init_state).cpu_logs c0).dropped = 0 := by decide
  have hall := runOps_dropped_inv ops klog_init_state hinit
  exact ⟨hall c, dropped_foldl _ hall _⟩

/-- C4: the `getklog` query returns the single uniform failure indicator -1
exactly on the claim's conditions — non-positive `max_entries`,
`max_entries` above the 1024 ceiling, a destination range of `max_entries`
records not contained in the caller's address space `[0, sz)`, a failed
staging allocation, or a failed per-record copy — and otherwise returns a
non-negative count that never exceeds the effective ceiling
`min max_entries 46` (46 = 4096 / sizeof(struct klog_entry), the silent
internal staging cap). -/
theorem C4_getklog_result (s : KlogState) (ba me : Int) (sz : Nat) (kOk : Bool)
    (cOk : Nat → Bool) :
    ((me ≤ 0 ∨ 1024 < me ∨ ¬(0 ≤ ba ∧ ba + me * (klog_entry_sizeof : Int) ≤ (sz : Int)) ∨
        kOk = false ∨ (List.range (getklog_count s me)).all cOk = false) →
      sys_getklog_fn s ba me sz kOk cOk = -1) ∧
    (¬(me ≤ 0 ∨ 1024 < me ∨ ¬(0 ≤ ba ∧ ba + me * (klog_entry_sizeof : Int) ≤ (sz : Int)) ∨
        kOk = false ∨ (List.range (getklog_count s me)).all cOk = false) →
      0 ≤ sys_getklog_fn s ba me sz kOk cOk ∧
        sys_getklog_fn s ba me sz kOk cOk = (getklog_count s me : Int) ∧
        sys_getklog_fn s ba me sz kOk cOk ≤ min me 46) := by
  have hsize : (klog_entry_sizeof : Int) = 88 := by decide
  have hfit : ((PGSIZE / klog_entry_sizeof : Nat) : Int) = 46 := by decide
  have hcnt : getklog_count s me ≤ (getklog_effective me).toNat :=
    klog_snapshot_count_le s (getklog_effective me).toNat
  unfold sys_getklog_fn
  simp only [hsize]
  split_ifs with h1 h2 h3 h4 h5
  · refine ⟨fun _ => rfl, fun hn => absurd ?_ hn⟩
    tauto
  · refine ⟨fun _ => rfl, fun hn => absurd ?_ hn⟩
    push_neg at h1
    refine Or.inr (Or.inr (Or.inl ?_))
    rcases h2 with h2 | h2
    · intro ⟨ha, _⟩; omega
    · intro ⟨ha, hb⟩; omega
  · refine ⟨fun _ => rfl, fun hn => absurd ?_ hn⟩
    refine Or.inr (Or.inr (Or.inl ?_))
    intro ⟨ha, hb⟩; omega
  · exact ⟨fun _ => rfl, fun hn => absurd (Or.inr (Or.inr (Or.inr (Or.inl h4)))) hn⟩
  · constructor
    · intro hd
      exfalso
      push_neg at h1 h2
      rcases hd with hd | hd | hd | hd | hd
      · omega
      · omega
      · exact hd ⟨by omega, by omega⟩
      · exact h4 hd
      · rw [hd] at h5; exact Bool.noConfusion h5
    · intro _
      refine ⟨Int.natCast_nonneg _, rfl, ?_⟩
      unfold getklog_effective at hcnt
      rw [hfit] at hcnt
      push_neg at h1
      by_cases hme : (46 : Int) < me
      · rw [if_pos hme] at hcnt
        have : getklog_count s me ≤ 46 := by omega
        omega
      · rw [if_neg hme] at hcnt
        have : getklog_count s me ≤ me.toNat := by omega
        omega
  · refine ⟨fun _ => rfl, fun hn => absurd ?_ hn⟩
    refine Or.inr (Or.inr (Or.inr (Or.inr ?_)))
    simpa using h5

/-- C4, witness: a violated precondition (`max_entries = 0`) yields -1, and
a valid call (one record requested, destination `[0, 88)` inside a process
of size 88, allocation and copies succeeding, empty log) yields a count
within the ceiling. -/
theorem C4_getklog_result_witness :
    sys_getklog_fn zeroState 0 0 88 true (fun _ => true) = -1 ∧
    (0 ≤ sys_getklog_fn zeroState 0 1 88 true (fun _ => true) ∧
      sys_getklog_fn zeroState 0 1 88 true (fun _ => true) =
        (getklog_count zeroState 1 : Int) ∧
      sys_getklog_fn zeroState 0 1 88 true (fun _ => true) ≤ min 1 46) :=
  ⟨(C4_getklog_result zeroState 0 0 88 true (fun _ => true)).1 (Or.inl (by decide)),
   (C4_getklog_result zeroState 0 1 88 true (fun _ => true)).2 (by decide)⟩

/-- C7 amended, witness: the specification's concrete instance, an
80-character literal message. -/
theorem C7_truncation_amended_witness :
    ((klog_printf_level_step zeroState cpu0 0 1 0 0 (List.replicate 80 'a') []).2).msg =
      (renderedText (List.replicate 80 'a') []).take 63 ∧
    (renderedText (List.replicate 80 'a') []).take 63 = (List.replicate 80 'a').take 63 :=
  C7_truncation_amended zeroState cpu0 0 1 0 0 (List.replicate 80 'a') []
    (by decide) (by decide)

end Klog
